import Mathlib

/-!
Shallow embedding of the go-raknet encapsulated-packet and acknowledgement
codecs (`src/packet.go`).  Byte buffers are modelled as `List Nat` (each
element a byte value); reading from a `bytes.Buffer` becomes a function from
the remaining byte list to an `Except` of the parsed value and the rest of
the list.  Machine integers are `Nat` with explicit `% 2^w` where Go
truncates or wraps.
-/

namespace RakNet

/-- Bytes of a big-endian 16-bit value, as written by Go's
`binary.Write(b, binary.BigEndian, v)` for a `uint16`/`int16`
(two's-complement bytes of an `int16` equal the bytes of its
value mod 2^16, which the `/ % ` expressions compute). -/
def uint16be (v : Nat) : List Nat :=
  [v / 256 % 256, v % 256]

/-- Bytes of a big-endian 32-bit value, as written by Go's
`binary.Write(b, binary.BigEndian, v)` for a `uint32`. -/
def uint32be (v : Nat) : List Nat :=
  [v / 16777216 % 256, v / 65536 % 256, v / 256 % 256, v % 256]

/-- Modelled from the spec: `writeUint24` is part of this repository but not
among the provided source files.  Per §4.1 it writes the low 24 bits of the
value as 3 bytes in big-endian order, truncating bits above 24. -/
def writeUint24 (v : Nat) : List Nat :=
  [v / 65536 % 256, v / 256 % 256, v % 256]

/-- Modelled from the spec: `readUint24` is part of this repository but not
among the provided source files.  Per §4.1 it reads 3 bytes big-endian and
fails with `TruncatedInput` if fewer than 3 bytes remain. -/
def readUint24 (bs : List Nat) : Except String (Nat × List Nat) :=
  match bs with
  | b0 :: b1 :: b2 :: rest => .ok (b0 * 65536 + b1 * 256 + b2, rest)
  | _ => .error "TruncatedInput"

/-- Go `binary.Read` of a big-endian 16-bit value: reads exactly 2 bytes via
`io.ReadFull`, failing on a short buffer. -/
def readUint16 (bs : List Nat) : Except String (Nat × List Nat) :=
  match bs with
  | b0 :: b1 :: rest => .ok (b0 * 256 + b1, rest)
  | _ => .error "TruncatedInput"

/-- Go `binary.Read` of a big-endian 32-bit value: reads exactly 4 bytes via
`io.ReadFull`, failing on a short buffer. -/
def readUint32 (bs : List Nat) : Except String (Nat × List Nat) :=
  match bs with
  | b0 :: b1 :: b2 :: b3 :: rest =>
      .ok (b0 * 16777216 + b1 * 65536 + b2 * 256 + b3, rest)
  | _ => .error "TruncatedInput"

/-- Go `bytes.Buffer.Read` into a zero-initialised slice `make([]byte, n)`:
it returns `io.EOF` only when the buffer is empty (and `n > 0`); otherwise it
copies up to `n` bytes and reports no error, leaving the tail of the slice
zero-filled on a short read. -/
def bufRead (n : Nat) (bs : List Nat) : Except String (List Nat × List Nat) :=
  if bs = [] ∧ 0 < n then .error "EOF"
  else .ok (bs.take n ++ List.replicate (n - bs.length) 0, bs.drop n)

/-- The `packet` struct of `src/packet.go` (an encapsulated packet). -/
structure packet where
  reliability : Nat
  content : List Nat
  messageIndex : Nat
  sequenceIndex : Nat
  orderIndex : Nat
  split : Bool
  splitCount : Nat
  splitIndex : Nat
  splitID : Nat
deriving Repr, DecidableEq

/-- The switch of `packet.reliable`, on the reliability tag:
true for `reliabilityReliable (2)`, `reliabilityReliableOrdered (3)`,
`reliabilityReliableSequenced (4)`, `reliabilityReliableWithAck (6)`,
`reliabilityReliableOrderedWithAck (7)`. -/
def reliableTag : Nat → Bool
  | 2 | 3 | 4 | 6 | 7 => true
  | _ => false

/-- The switch of `packet.sequencedOrOrdered`, on the reliability tag:
true for `reliabilityUnreliableSequenced (1)`, `reliabilityReliableOrdered (3)`,
`reliabilityReliableSequenced (4)`, `reliabilityReliableOrderedWithAck (7)`. -/
def sequencedOrOrderedTag : Nat → Bool
  | 1 | 3 | 4 | 7 => true
  | _ => false

/-- The switch of `packet.sequenced`, on the reliability tag:
true for `reliabilityUnreliableSequenced (1)`, `reliabilityReliableSequenced (4)`. -/
def sequencedTag : Nat → Bool
  | 1 | 4 => true
  | _ => false

/-- Method `packet.reliable` of `src/packet.go`. -/
def packet.reliable (p : packet) : Bool := reliableTag p.reliability

/-- Method `packet.sequencedOrOrdered` of `src/packet.go`. -/
def packet.sequencedOrOrdered (p : packet) : Bool := sequencedOrOrderedTag p.reliability

/-- Method `packet.sequenced` of `src/packet.go`. -/
def packet.sequenced (p : packet) : Bool := sequencedTag p.reliability

/-- Method `packet.write` of `src/packet.go`: appends the encoding of the
packet to the buffer `b`.  Writes to a `bytes.Buffer` cannot fail, so the
result is the extended buffer.  `header = reliability << 5 | splitFlag?`,
the 16-bit length field is `uint16(len(content)) << 3` (wrapping mod 2^16),
then the conditional index fields, split fields and raw content. -/
def packet.write (p : packet) (b : List Nat) : List Nat :=
  let header := ((p.reliability <<< 5) % 256) ||| (if p.split then 16 else 0)
  let b := b ++ [header]
  let b := b ++ uint16be (p.content.length <<< 3)
  let b := if p.reliable then b ++ writeUint24 p.messageIndex else b
  let b := if p.sequenced then b ++ writeUint24 p.sequenceIndex else b
  let b := if p.sequencedOrOrdered then b ++ writeUint24 p.orderIndex ++ [0] else b
  let b := if p.split then
      b ++ uint32be p.splitCount ++ uint16be p.splitID ++ uint32be p.splitIndex
    else b
  b ++ p.content

/-- Method `packet.read` of `src/packet.go`, on a fresh `packet{}` (all
fields zero-initialised): parses one encapsulated packet from the head of
the buffer.  Mirrors the source step by step: header byte; 16-bit length
right-shifted by 3, rejected when 0; conditional 24-bit indices (the order
channel byte is skipped with `b.Next(1)`, which never fails); conditional
split fields via `binary.Read`; finally `bytes.Buffer.Read` into a slice of
`packetLength` zero bytes, whose error is checked but not its byte count. -/
def packet.read (bs : List Nat) : Except String packet :=
  match bs with
  | [] => .error "EOF"
  | header :: bs =>
    let split := (header &&& 16) != 0
    let reliability := (header &&& 224) >>> 5
    match readUint16 bs with
    | .error e => .error e
    | .ok (rawLength, bs) =>
      let packetLength := rawLength >>> 3
      if packetLength = 0 then .error "invalid packet length: cannot be 0"
      else
        match (if reliableTag reliability then readUint24 bs
               else .ok (0, bs) : Except String (Nat × List Nat)) with
        | .error e => .error e
        | .ok (messageIndex, bs) =>
          match (if sequencedTag reliability then readUint24 bs
                 else .ok (0, bs) : Except String (Nat × List Nat)) with
          | .error e => .error e
          | .ok (sequenceIndex, bs) =>
            match (if sequencedOrOrderedTag reliability then
                    match readUint24 bs with
                    | .error e => .error e
                    | .ok (v, bs) => .ok (v, bs.drop 1)
                  else .ok (0, bs) : Except String (Nat × List Nat)) with
            | .error e => .error e
            | .ok (orderIndex, bs) =>
              match (if split then
                      match readUint32 bs with
                      | .error e => .error e
                      | .ok (sc, bs) =>
                        match readUint16 bs with
                        | .error e => .error e
                        | .ok (sid, bs) =>
                          match readUint32 bs with
                          | .error e => .error e
                          | .ok (si, bs) => .ok ((sc, sid, si), bs)
                    else .ok ((0, 0, 0), bs)
                      : Except String ((Nat × Nat × Nat) × List Nat)) with
              | .error e => .error e
              | .ok ((splitCount, splitID, splitIndex), bs) =>
                match bufRead packetLength bs with
                | .error e => .error e
                | .ok (content, _) =>
                  .ok { reliability, content, messageIndex, sequenceIndex,
                        orderIndex, split, splitCount, splitIndex, splitID }

/-- One flushed acknowledgement record, as written inside `acknowledgement.write`:
a `PacketSingle (1)` tag with one 24-bit value when the run has one element,
otherwise a `PacketRange (0)` tag with the first and last 24-bit values. -/
def flushBytes (first lastP : Nat) : List Nat :=
  if first = lastP then 1 :: writeUint24 first
  else 0 :: (writeUint24 first ++ writeUint24 lastP)

/-- The record bytes produced by the scan loop of `acknowledgement.write`,
given the current run `[first, lastP]` and the remaining sorted packets:
a packet equal to `lastP + 1` extends the run, anything else flushes the run
and starts a new one at that packet; the final run is flushed after the scan. -/
def recordBytes : Nat → Nat → List Nat → List Nat
  | first, lastP, [] => flushBytes first lastP
  | first, lastP, p :: rest =>
    if p = lastP + 1 then recordBytes first p rest
    else flushBytes first lastP ++ recordBytes p p rest

/-- The record count tracked by `acknowledgement.write`: starts at 1 and is
incremented once per in-loop flush, so it totals the number of flushed
records. -/
def recordCount : Nat → Nat → List Nat → Nat
  | _, _, [] => 1
  | first, lastP, p :: rest =>
    if p = lastP + 1 then recordCount first p rest
    else recordCount p p rest + 1

/-- Method `acknowledgement.write` of `src/packet.go`.  Returns the buffer
after the append together with the final value of `ack.packets` (the
`sort.Slice` call reorders the slice in place before the scan; the model's
sort is `List.insertionSort`, which like any correct comparison sort realises
an ascending reordering of the slice).  An empty set writes the single byte 0
and leaves the slice untouched.  Otherwise the 16-bit record count is written
first (an `int16` in Go, whose two's-complement bytes are those of the count
mod 2^16), then the record bytes. -/
def ackWrite (packets : List Nat) (b : List Nat) : List Nat × List Nat :=
  match packets with
  | [] => (b ++ [0], [])
  | _ :: _ =>
    match packets.insertionSort (· ≤ ·) with
    | [] => (b, [])
    | p :: rest =>
      (b ++ uint16be (recordCount p p rest) ++ recordBytes p p rest, p :: rest)

/-- The record count of `acknowledgement.write` as a function of the raw
packet slice (0 for the empty slice, which takes the one-byte fast path). -/
def ackRecordCount (packets : List Nat) : Nat :=
  match packets.insertionSort (· ≤ ·) with
  | [] => 0
  | p :: rest => recordCount p p rest

/-- The expansion loop of a `PacketRange` record in `acknowledgement.read`:
`for pack := start; pack <= end; pack++` appends `start, ..., end` when
`start ≤ end` and nothing otherwise. -/
def rangeList (start fin : Nat) : List Nat :=
  List.range' start (fin + 1 - start)

/-- The record loop of `acknowledgement.read`, by remaining iteration count:
each iteration reads a 1-byte tag; tag 0 (`PacketRange`) reads two 24-bit
values and appends the inclusive range, tag 1 (`PacketSingle`) reads one
24-bit value and appends it, and any other tag falls through the `switch`
without reading further bytes or appending.  Returns the appended packets in
order together with the unconsumed bytes. -/
def ackReadLoop : Nat → List Nat → Except String (List Nat × List Nat)
  | 0, bs => .ok ([], bs)
  | i + 1, bs =>
    match bs with
    | [] => .error "EOF"
    | t :: bs =>
      if t = 0 then
        match readUint24 bs with
        | .error e => .error e
        | .ok (start, bs) =>
          match readUint24 bs with
          | .error e => .error e
          | .ok (fin, bs) =>
            match ackReadLoop i bs with
            | .error e => .error e
            | .ok (packets, bs) => .ok (rangeList start fin ++ packets, bs)
      else if t = 1 then
        match readUint24 bs with
        | .error e => .error e
        | .ok (v, bs) =>
          match ackReadLoop i bs with
          | .error e => .error e
          | .ok (packets, bs) => .ok (v :: packets, bs)
      else ackReadLoop i bs

/-- Method `acknowledgement.read` of `src/packet.go`, on a fresh
`acknowledgement{}`: reads a big-endian `int16` record count (2 bytes, short
buffers fail), then runs the record loop.  A non-positive signed count (raw
value ≥ 2^15) runs the loop zero times.  Trailing bytes are not an error. -/
def ackRead (bs : List Nat) : Except String (List Nat) :=
  match readUint16 bs with
  | .error e => .error e
  | .ok (raw, bs) =>
    let iters := if raw < 32768 then raw else 0
    match ackReadLoop iters bs with
    | .error e => .error e
    | .ok (packets, _) => .ok packets

/-! ### Parsing lemmas for the integer primitives -/

theorem readUint16_uint16be (v : Nat) (bs : List Nat) :
    readUint16 (uint16be v ++ bs) = .ok (v % 65536, bs) := by
  simp only [uint16be, readUint16, List.cons_append, List.nil_append,
    Except.ok.injEq, Prod.mk.injEq, and_true]
  omega

theorem readUint24_writeUint24 (v : Nat) (bs : List Nat) :
    readUint24 (writeUint24 v ++ bs) = .ok (v % 16777216, bs) := by
  simp only [writeUint24, readUint24, List.cons_append, List.nil_append,
    Except.ok.injEq, Prod.mk.injEq, and_true]
  omega

theorem readUint32_uint32be (v : Nat) (bs : List Nat) :
    readUint32 (uint32be v ++ bs) = .ok (v % 4294967296, bs) := by
  simp only [uint32be, readUint32, List.cons_append, List.nil_append,
    Except.ok.injEq, Prod.mk.injEq, and_true]
  omega

theorem bufRead_exact (bs : List Nat) (h : bs ≠ []) :
    bufRead bs.length bs = .ok (bs, []) := by
  simp [bufRead, h]

theorem bufRead_pos (n : Nat) (bs c r : List Nat)
    (h : bufRead n bs = .ok (c, r)) (hn : 0 < n) : c ≠ [] := by
  unfold bufRead at h
  split at h
  · simp at h
  · rename_i hcond
    have hbs : bs ≠ [] := fun hb => hcond ⟨hb, hn⟩
    simp only [Except.ok.injEq, Prod.mk.injEq] at h
    intro hnil
    rw [← h.1] at hnil
    simp only [List.append_eq_nil, List.take_eq_nil_iff] at hnil
    rcases hnil.1 with h1 | h1
    · omega
    · exact hbs h1

/-! ### Theorems about the claims -/

/-- C3 (code divergence at the failing input): the buffer
`[0x00, 0x00, 0x10, 0xAB]` is a proper prefix of the valid encoding of an
Unreliable packet with two content bytes (the length field declares 2 bytes
of content but only one remains).  `packet.read` nevertheless succeeds,
returning the partial content zero-filled to the declared length, because
the final `bytes.Buffer.Read` reports a short read with a nil error and the
code only checks the error. -/
theorem packet_read_short_content :
    packet.read [0, 0, 16, 171] =
      .ok { reliability := 0, content := [171, 0], messageIndex := 0,
            sequenceIndex := 0, orderIndex := 0, split := false,
            splitCount := 0, splitIndex := 0, splitID := 0 } := rfl

/-- C4 counterexample: encoding the empty acknowledgement set does produce
the single byte 0, but `acknowledgement.read` applied to that one-byte
output does not succeed: `binary.Read` of the 16-bit record count needs two
bytes and fails on the one-byte buffer. -/
theorem ack_empty_decode_cex :
    (ackWrite [] []).1 = [0] ∧ ackRead [0] = .error "TruncatedInput" := by
  exact ⟨rfl, rfl⟩

/-- C4 amended: encoding the empty set produces exactly one byte (value 0),
but decoding that one-byte output fails with a truncated-input error, since
the decoder unconditionally reads a 16-bit signed record count; a full
two-byte zero count decodes to the empty set. -/
theorem ack_empty_encode_decode :
    (ackWrite [] []).1 = [0] ∧ (∃ e, ackRead [0] = .error e) ∧
      ackRead [0, 0] = .ok [] := by
  exact ⟨rfl, ⟨"TruncatedInput", rfl⟩, rfl⟩

/-- C6: `acknowledgement.write` compresses by contiguity alone — the set
`{5,6,7,10,12,13}` encodes as record count 3 followed by exactly
`Range(5,7)` (tag 0), `Single(10)` (tag 1), `Range(12,13)` (tag 0) in that
order, and the two-element contiguous set `{100,101}` encodes as record
count 1 followed by the single record `Range(100,101)`. -/
theorem ack_range_compression :
    (ackWrite [5, 6, 7, 10, 12, 13] []).1 =
      uint16be 3 ++ ((0 :: (writeUint24 5 ++ writeUint24 7))
        ++ ((1 :: writeUint24 10) ++ (0 :: (writeUint24 12 ++ writeUint24 13)))) ∧
    (ackWrite [100, 101] []).1 =
      uint16be 1 ++ (0 :: (writeUint24 100 ++ writeUint24 101)) := by
  exact ⟨rfl, rfl⟩

/-- C7: the three reliability classifiers are true exactly on the listed
tags — `reliable` on {2,3,4,6,7} (Reliable, ReliableOrdered,
ReliableSequenced, ReliableWithAck, ReliableOrderedWithAck), `sequenced` on
{1,4} (UnreliableSequenced, ReliableSequenced), `sequencedOrOrdered` on
{1,3,4,7} — and for every tag below 8, `sequencedOrOrdered` agrees with
`sequenced OR tag ∈ {ReliableOrdered, ReliableOrderedWithAck}`. -/
theorem classifier_tables (r : Nat) (h : r < 8) :
    (reliableTag r = true ↔ r = 2 ∨ r = 3 ∨ r = 4 ∨ r = 6 ∨ r = 7) ∧
    (sequencedTag r = true ↔ r = 1 ∨ r = 4) ∧
    (sequencedOrOrderedTag r = true ↔ r = 1 ∨ r = 3 ∨ r = 4 ∨ r = 7) ∧
    sequencedOrOrderedTag r = (sequencedTag r || decide (r = 3 ∨ r = 7)) := by
  interval_cases r <;> decide

theorem classifier_tables_witness :
    (4 : Nat) < 8 ∧
    ((reliableTag 4 = true ↔ 4 = 2 ∨ 4 = 3 ∨ 4 = 4 ∨ 4 = 6 ∨ 4 = 7) ∧
     (sequencedTag 4 = true ↔ 4 = 1 ∨ 4 = 4) ∧
     (sequencedOrOrderedTag 4 = true ↔ 4 = 1 ∨ 4 = 3 ∨ 4 = 4 ∨ 4 = 7) ∧
     sequencedOrOrderedTag 4 = (sequencedTag 4 || decide (4 = 3 ∨ 4 = 7))) :=
  ⟨by decide, classifier_tables 4 (by decide)⟩

/-- C8: in the record loop of `acknowledgement.read`, a record whose tag is
neither 0 nor 1 is silently skipped — the iteration consumes only the tag
byte, appends no sequence numbers, still counts against the declared record
count, and raises no error: the loop at `n + 1` remaining iterations on
`t :: rest` is the loop at `n` iterations on `rest`. -/
theorem ackReadLoop_unknown_tag (n t : Nat) (rest : List Nat)
    (h0 : t ≠ 0) (h1 : t ≠ 1) :
    ackReadLoop (n + 1) (t :: rest) = ackReadLoop n rest := by
  simp [ackReadLoop, h0, h1]

theorem ackReadLoop_unknown_tag_witness :
    ackReadLoop 1 [7] = ackReadLoop 0 [] :=
  ackReadLoop_unknown_tag 0 7 [] (by decide) (by decide)

/-- C10: a `PacketRange` record whose first value exceeds its last value
contributes no sequence numbers and no error — the inclusive expansion loop
body never runs — and decoding continues with the remaining records. -/
theorem ackReadLoop_empty_range (n start fin : Nat) (rest : List Nat)
    (hs : start < 16777216) (hf : fin < 16777216) (hlt : fin < start) :
    ackReadLoop (n + 1) (0 :: (writeUint24 start ++ (writeUint24 fin ++ rest)))
      = ackReadLoop n rest := by
  have h1 : rangeList start fin = [] := by
    simp [rangeList]
    omega
  simp only [ackReadLoop, if_pos rfl, readUint24_writeUint24,
    Nat.mod_eq_of_lt hs, Nat.mod_eq_of_lt hf]
  cases h : ackReadLoop n rest with
  | error e => rfl
  | ok pr => simp [h1]

theorem ackReadLoop_empty_range_witness :
    ackReadLoop 1 (0 :: (writeUint24 5 ++ (writeUint24 3 ++ [])))
      = ackReadLoop 0 [] :=
  ackReadLoop_empty_range 0 5 3 [] (by decide) (by decide) (by decide)

/-- C9: for every non-empty packets slice, `acknowledgement.write` leaves
`ack.packets` holding an ascending reordering of its original elements (the
in-place `sort.Slice`), touches nothing else of the acknowledgement value,
and its only other effect is appending bytes to the output buffer: the
resulting buffer is the initial buffer followed by the bytes the call would
append to an empty buffer. -/
theorem ackWrite_frame (s b : List Nat) (h : s ≠ []) :
    (ackWrite s b).2.Perm s ∧ (ackWrite s b).2.Sorted (· ≤ ·) ∧
      (ackWrite s b).1 = b ++ (ackWrite s []).1 := by
  match s, h with
  | p0 :: s0, _ =>
    cases hs : (p0 :: s0).insertionSort (· ≤ ·) with
    | nil =>
      have hp := List.perm_insertionSort (· ≤ ·) (p0 :: s0)
      rw [hs] at hp
      exact absurd hp.symm (by simp)
    | cons p rest =>
      have hp := List.perm_insertionSort (α := Nat) (· ≤ ·) (p0 :: s0)
      have hsort := List.sorted_insertionSort (α := Nat) (· ≤ ·) (p0 :: s0)
      rw [hs] at hp hsort
      refine ⟨?_, ?_, ?_⟩ <;> simp only [ackWrite, hs]
      · exact hp
      · exact hsort
      · simp

theorem ackWrite_frame_witness :
    (ackWrite [2, 1] [9]).2.Perm [2, 1] ∧
      (ackWrite [2, 1] [9]).2.Sorted (· ≤ ·) ∧
      (ackWrite [2, 1] [9]).1 = [9] ++ (ackWrite [2, 1] []).1 :=
  ackWrite_frame [2, 1] [9] (by simp)

/-- C5: whenever the decoded 16-bit length field of an encapsulated packet,
right-shifted by 3, is zero, `packet.read` fails with the invalid-length
error regardless of the header byte (and hence of the reliability tag); and
`packet.read` never succeeds with empty content. -/
theorem packet_read_zero_length :
    (∀ (header a b : Nat) (rest : List Nat), (a * 256 + b) >>> 3 = 0 →
        packet.read (header :: a :: b :: rest) =
          .error "invalid packet length: cannot be 0") ∧
    (∀ (bs : List Nat) (q : packet), packet.read bs = .ok q → q.content ≠ []) := by
  constructor
  · intro header a b rest hlen
    simp [packet.read, readUint16, hlen]
  · intro bs q hq
    match bs with
    | [] => simp [packet.read] at hq
    | header :: bs =>
      simp only [packet.read] at hq
      split at hq
      · exact absurd hq (by simp)
      · rename_i rawLength bs1 hr16
        split at hq
        · exact absurd hq (by simp)
        · rename_i hlen
          split at hq
          · exact absurd hq (by simp)
          · rename_i mi bs2 hmi
            split at hq
            · exact absurd hq (by simp)
            · rename_i si bs3 hsi
              split at hq
              · exact absurd hq (by simp)
              · rename_i oi bs4 hoi
                split at hq
                · exact absurd hq (by simp)
                · rename_i sc sid sidx bs5 hsplit
                  cases hbr : bufRead (rawLength >>> 3) bs5 with
                  | error e => rw [hbr] at hq; exact absurd hq (by simp)
                  | ok cr =>
                    match cr, hbr with
                    | (content, restBytes), hbr =>
                      rw [hbr] at hq
                      simp only [Except.ok.injEq] at hq
                      have hc : content ≠ [] :=
                        bufRead_pos _ _ _ _ hbr (Nat.pos_of_ne_zero hlen)
                      rw [← hq]
                      simpa using hc

theorem packet_read_zero_length_witness :
    packet.read [96, 0, 7] = .error "invalid packet length: cannot be 0" ∧
      ({ reliability := 0, content := [171, 0], messageIndex := 0,
         sequenceIndex := 0, orderIndex := 0, split := false,
         splitCount := 0, splitIndex := 0, splitID := 0 } : packet).content ≠ [] :=
  ⟨packet_read_zero_length.1 96 0 7 [] (by decide),
   packet_read_zero_length.2 [0, 0, 16, 171] _ rfl⟩

/-! ### Round-trip of the acknowledgement codec -/

theorem rangeList_self (a : Nat) : rangeList a a = [a] := by
  simp [rangeList]

theorem rangeList_extend (a b : Nat) (h : a ≤ b + 1) :
    rangeList a (b + 1) = rangeList a b ++ [b + 1] := by
  unfold rangeList
  have h2 : b + 1 + 1 - a = (b + 1 - a) + 1 := by omega
  have h3 : a + 1 * (b + 1 - a) = b + 1 := by omega
  rw [h2, List.range'_concat, h3]

/-- Decoding one flushed record from the head of the byte stream prepends
the run's inclusive range to whatever the remaining iterations decode. -/
theorem ackReadLoop_flush (n first lastP : Nat) (bs : List Nat)
    (hle : first ≤ lastP) (hlt : lastP < 16777216) :
    ackReadLoop (n + 1) (flushBytes first lastP ++ bs) =
      match ackReadLoop n bs with
      | .error e => .error e
      | .ok (packets, r) => .ok (rangeList first lastP ++ packets, r) := by
  have hfirst : first % 16777216 = first := Nat.mod_eq_of_lt (by omega)
  have hlast : lastP % 16777216 = lastP := Nat.mod_eq_of_lt hlt
  by_cases hfl : first = lastP
  · subst hfl
    cases h : ackReadLoop n bs with
    | error e =>
      simp [flushBytes, ackReadLoop, readUint24_writeUint24, hfirst, h]
    | ok pr =>
      simp [flushBytes, ackReadLoop, readUint24_writeUint24, hfirst, h,
        rangeList_self]
  · cases h : ackReadLoop n bs with
    | error e =>
      simp [flushBytes, hfl, ackReadLoop, readUint24_writeUint24,
        hfirst, hlast, h]
    | ok pr =>
      simp [flushBytes, hfl, ackReadLoop, readUint24_writeUint24,
        hfirst, hlast, h]

/-- Decoding the records flushed by the scan loop of `acknowledgement.write`,
run for exactly the record count the loop tracks, reproduces the current run
followed by the remaining (strictly ascending) packets, and consumes exactly
the record bytes. -/
theorem ackReadLoop_recordBytes (rest : List Nat) :
    ∀ (first lastP : Nat) (extra : List Nat),
      first ≤ lastP → lastP < 16777216 → List.Chain (· < ·) lastP rest →
      (∀ x ∈ rest, x < 16777216) →
      ackReadLoop (recordCount first lastP rest)
          (recordBytes first lastP rest ++ extra) =
        .ok (rangeList first lastP ++ rest, extra) := by
  induction rest with
  | nil =>
    intro first lastP extra hle hlt _ _
    show ackReadLoop (0 + 1) (flushBytes first lastP ++ extra) = _
    rw [ackReadLoop_flush 0 first lastP extra hle hlt]
    simp [ackReadLoop]
  | cons p t ih =>
    intro first lastP extra hle hlt hchain hbound
    rw [List.chain_cons] at hchain
    have hpbound : p < 16777216 := hbound p (by simp)
    by_cases hp : p = lastP + 1
    · subst hp
      rw [show recordCount first lastP ((lastP + 1) :: t)
            = recordCount first (lastP + 1) t from by simp [recordCount],
          show recordBytes first lastP ((lastP + 1) :: t)
            = recordBytes first (lastP + 1) t from by simp [recordBytes]]
      rw [ih first (lastP + 1) extra (by omega) hpbound hchain.2
            (fun x hx => hbound x (by simp [hx]))]
      rw [rangeList_extend first lastP (by omega)]
      simp
    · rw [show recordCount first lastP (p :: t) = recordCount p p t + 1 from
            by simp [recordCount, hp],
          show recordBytes first lastP (p :: t)
            = flushBytes first lastP ++ recordBytes p p t from
            by simp [recordBytes, hp]]
      rw [List.append_assoc,
          ackReadLoop_flush (recordCount p p t) first lastP _ hle hlt]
      rw [ih p p extra le_rfl hpbound hchain.2
            (fun x hx => hbound x (by simp [hx]))]
      simp [rangeList_self]

/-- C2 counterexample: for the empty set (which the claim includes),
`acknowledgement.read` applied to the bytes `acknowledgement.write` produced
does not succeed — the writer emits a single zero byte while the reader
demands a two-byte record count. -/
theorem ack_roundtrip_cex :
    ackRead (ackWrite [] []).1 = .error "TruncatedInput" := rfl

/-- C2 amended: for every non-empty list of distinct 24-bit sequence numbers
whose compressed record count fits in a signed 16-bit integer (at most
32767), decoding the bytes written by `acknowledgement.write` succeeds and
yields exactly that set of sequence numbers — the decoded list is the
ascending sort of the input, a permutation of it. -/
theorem ack_roundtrip (s : List Nat) (hne : s ≠ []) (hnd : s.Nodup)
    (hbound : ∀ x ∈ s, x < 16777216) (hcount : ackRecordCount s ≤ 32767) :
    ackRead (ackWrite s []).1 = .ok (s.insertionSort (· ≤ ·)) ∧
      (s.insertionSort (· ≤ ·)).Perm s := by
  match s, hne with
  | p0 :: s0, _ =>
    have hp := List.perm_insertionSort (α := Nat) (· ≤ ·) (p0 :: s0)
    have hsort := List.sorted_insertionSort (α := Nat) (· ≤ ·) (p0 :: s0)
    cases hs : (p0 :: s0).insertionSort (· ≤ ·) with
    | nil =>
      rw [hs] at hp
      exact absurd hp.symm (by simp)
    | cons p rest =>
      rw [hs] at hp hsort
      refine ⟨?_, hp⟩
      have hnodup : (p :: rest).Nodup := hp.symm.nodup hnd
      have hstrict : List.Sorted (· < ·) (p :: rest) := hsort.lt_of_le hnodup
      have hchain : List.Chain (· < ·) p rest :=
        List.chain_iff_pairwise.mpr hstrict
      have hsbound : ∀ x ∈ p :: rest, x < 16777216 :=
        fun x hx => hbound x (hp.mem_iff.mp hx)
      have hcnt : recordCount p p rest ≤ 32767 := by
        have : ackRecordCount (p0 :: s0) = recordCount p p rest := by
          simp only [ackRecordCount, hs]
        omega
      have hcntmod : recordCount p p rest % 65536 = recordCount p p rest :=
        Nat.mod_eq_of_lt (by omega)
      simp only [ackWrite, hs, List.nil_append, ackRead, List.append_assoc,
        readUint16_uint16be, hcntmod]
      rw [if_pos (by omega)]
      have hmain := ackReadLoop_recordBytes rest p p [] le_rfl
        (hsbound p (by simp)) hchain (fun x hx => hsbound x (by simp [hx]))
      rw [List.append_nil] at hmain
      rw [hmain]
      simp [rangeList_self]

theorem ack_roundtrip_witness :
    ackRead (ackWrite [1, 2, 5] []).1 =
        .ok (([1, 2, 5] : List Nat).insertionSort (· ≤ ·)) ∧
      (([1, 2, 5] : List Nat).insertionSort (· ≤ ·)).Perm [1, 2, 5] :=
  ack_roundtrip [1, 2, 5] (by simp) (by decide) (by decide) (by decide)

/-! ### Round-trip of the encapsulated-packet codec -/

/-- Header-byte decompositions for the sixteen headers `packet.write` can
produce (reliability tag 0–7, shifted to bits 5–7, with or without the split
flag 0x10): masking with 224 and shifting right by 5 recovers the tag, and
masking with 16 recovers the split flag. -/
theorem headerFacts :
    (((0 : Nat) &&& 224) >>> 5 = 0 ∧ (((0 : Nat) &&& 16) != 0) = false) ∧
    (((32 : Nat) &&& 224) >>> 5 = 1 ∧ (((32 : Nat) &&& 16) != 0) = false) ∧
    (((64 : Nat) &&& 224) >>> 5 = 2 ∧ (((64 : Nat) &&& 16) != 0) = false) ∧
    (((96 : Nat) &&& 224) >>> 5 = 3 ∧ (((96 : Nat) &&& 16) != 0) = false) ∧
    (((128 : Nat) &&& 224) >>> 5 = 4 ∧ (((128 : Nat) &&& 16) != 0) = false) ∧
    (((160 : Nat) &&& 224) >>> 5 = 5 ∧ (((160 : Nat) &&& 16) != 0) = false) ∧
    (((192 : Nat) &&& 224) >>> 5 = 6 ∧ (((192 : Nat) &&& 16) != 0) = false) ∧
    (((224 : Nat) &&& 224) >>> 5 = 7 ∧ (((224 : Nat) &&& 16) != 0) = false) ∧
    (((16 : Nat) &&& 224) >>> 5 = 0 ∧ (((16 : Nat) &&& 16) != 0) = true) ∧
    (((48 : Nat) &&& 224) >>> 5 = 1 ∧ (((48 : Nat) &&& 16) != 0) = true) ∧
    (((80 : Nat) &&& 224) >>> 5 = 2 ∧ (((80 : Nat) &&& 16) != 0) = true) ∧
    (((112 : Nat) &&& 224) >>> 5 = 3 ∧ (((112 : Nat) &&& 16) != 0) = true) ∧
    (((144 : Nat) &&& 224) >>> 5 = 4 ∧ (((144 : Nat) &&& 16) != 0) = true) ∧
    (((176 : Nat) &&& 224) >>> 5 = 5 ∧ (((176 : Nat) &&& 16) != 0) = true) ∧
    (((208 : Nat) &&& 224) >>> 5 = 6 ∧ (((208 : Nat) &&& 16) != 0) = true) ∧
    (((240 : Nat) &&& 224) >>> 5 = 7 ∧ (((240 : Nat) &&& 16) != 0) = true) := by
  decide

/-- The 16-bit length field `uint16(len) << 3` recovers `len` after the
right shift by 3 whenever `len` fits in 13 bits. -/
theorem length_field_roundtrip (n : Nat) (h : n ≤ 8191) :
    ((n <<< 3) % 65536) >>> 3 = n := by
  rw [Nat.shiftLeft_eq, Nat.shiftRight_eq_div_pow]
  have h8 : (2 : Nat) ^ 3 = 8 := by norm_num
  rw [h8]
  omega

/-- Reading back the bytes `packet.write` produced recovers every field the
wire format carries for the written packet's reliability tag and split flag,
and zero (the fresh packet's value) for the fields it does not carry. -/
theorem packet_read_write_eq (r : Nat) (c : List Nat) (mi si oi : Nat)
    (sp : Bool) (sc sidx sid : Nat)
    (hrel : r < 8) (hlen1 : 1 ≤ c.length) (hlen2 : c.length ≤ 8191)
    (hmi : mi < 16777216) (hsi : si < 16777216) (hoi : oi < 16777216)
    (hsc : sc < 4294967296) (hsid : sid < 65536) (hsix : sidx < 4294967296) :
    packet.read (packet.write ⟨r, c, mi, si, oi, sp, sc, sidx, sid⟩ []) =
      .ok ⟨r, c, if reliableTag r then mi else 0,
           if sequencedTag r then si else 0,
           if sequencedOrOrderedTag r then oi else 0, sp,
           if sp then sc else 0, if sp then sidx else 0,
           if sp then sid else 0⟩ := by
  have hcne : c ≠ [] := List.length_pos.mp (by omega)
  have hlen0 : ¬ (c.length = 0) := by omega
  have hlenf := length_field_roundtrip c.length hlen2
  interval_cases r <;> cases sp <;>
    simp [packet.write, packet.read, packet.reliable, packet.sequenced,
      packet.sequencedOrOrdered, reliableTag, sequencedTag,
      sequencedOrOrderedTag, headerFacts,
      readUint16_uint16be, readUint24_writeUint24, readUint32_uint32be,
      hlenf, hlen0, bufRead_exact c hcne,
      Nat.mod_eq_of_lt hmi, Nat.mod_eq_of_lt hsi, Nat.mod_eq_of_lt hoi,
      Nat.mod_eq_of_lt hsc, Nat.mod_eq_of_lt hsid, Nat.mod_eq_of_lt hsix]

/-- C1: for every reliability tag 0–7, every split-flag setting with its
split fields, every choice of 24-bit message/sequence/order indices and
in-range split fields, and every content of length 1 to 8191, decoding the
bytes `packet.write` produced yields a packet that agrees with the original
on reliability, split and content, on each index field whose presence the
tag dictates, and on the split fields when the split flag is set. -/
theorem packet_roundtrip (p : packet)
    (hrel : p.reliability < 8)
    (hlen1 : 1 ≤ p.content.length) (hlen2 : p.content.length ≤ 8191)
    (hmi : p.messageIndex < 16777216) (hsi : p.sequenceIndex < 16777216)
    (hoi : p.orderIndex < 16777216)
    (hsc : p.splitCount < 4294967296) (hsid : p.splitID < 65536)
    (hsix : p.splitIndex < 4294967296) :
    ∃ q : packet, packet.read (packet.write p []) = .ok q ∧
      q.reliability = p.reliability ∧ q.split = p.split ∧
      q.content = p.content ∧
      (p.reliable = true → q.messageIndex = p.messageIndex) ∧
      (p.sequenced = true → q.sequenceIndex = p.sequenceIndex) ∧
      (p.sequencedOrOrdered = true → q.orderIndex = p.orderIndex) ∧
      (p.split = true → q.splitCount = p.splitCount ∧ q.splitID = p.splitID ∧
        q.splitIndex = p.splitIndex) := by
  obtain ⟨r, c, mi, si, oi, sp, sc, sidx, sid⟩ := p
  refine ⟨_, packet_read_write_eq r c mi si oi sp sc sidx sid
      hrel hlen1 hlen2 hmi hsi hoi hsc hsid hsix,
    rfl, rfl, rfl, ?_, ?_, ?_, ?_⟩
  · intro h
    simp only [packet.reliable] at h
    simp [h]
  · intro h
    simp only [packet.sequenced] at h
    simp [h]
  · intro h
    simp only [packet.sequencedOrOrdered] at h
    simp [h]
  · intro h
    simp only at h
    simp [h]

theorem packet_roundtrip_witness :
    ∃ q : packet,
      packet.read (packet.write
        { reliability := 4, content := [9, 8], messageIndex := 3,
          sequenceIndex := 5, orderIndex := 7, split := true,
          splitCount := 2, splitIndex := 1, splitID := 77 } []) = .ok q ∧
      q.reliability = 4 ∧ q.split = true ∧ q.content = [9, 8] ∧
      (reliableTag 4 = true → q.messageIndex = 3) ∧
      (sequencedTag 4 = true → q.sequenceIndex = 5) ∧
      (sequencedOrOrderedTag 4 = true → q.orderIndex = 7) ∧
      (true = true → q.splitCount = 2 ∧ q.splitID = 77 ∧ q.splitIndex = 1) :=
  packet_roundtrip
    { reliability := 4, content := [9, 8], messageIndex := 3,
      sequenceIndex := 5, orderIndex := 7, split := true,
      splitCount := 2, splitIndex := 1, splitID := 77 }
    (by decide) (by decide) (by decide) (by decide) (by decide)
    (by decide) (by decide) (by decide) (by decide)

end RakNet
